import Mathlib

/-!
Verification of the ibstore repository: a shallow embedding of the storage
layer (src/storage/ibstore/_store.py, record.py, models.py) and of the
parallel minimization pipeline (src/ibstore/_minimize.py), together with
theorems settling the specification claims about deduplication, transactional
mutation, coordinate validation, force-field resolution, atom remapping and
ordered aggregation of pool results.

Modelling conventions: numpy arrays become `NDArray` (flat integer data, a
shape list, and the writeable flag that `record.py` manipulates); machine
floats that the claims only carry around, never compute with, become `Int`;
Python exceptions become `Except`; external cheminformatics and physics
calls (OpenFF / OpenMM) become fields of an explicit `Toolkit` record, so the
repository's own control flow is embedded exactly while the external engine
stays a parameter.
-/

/-- Model of a numpy ndarray: flat element data, a shape, and the `writeable`
flag (`record.py` sets `v.flags.writeable = False` on validated
coordinates). -/
structure NDArray where
  data : List Int
  shape : List Nat
  writeable : Bool
deriving DecidableEq

/-- Model of `numpy.ndarray.reshape((-1, 3))`: succeeds exactly when the
element count is divisible by 3, producing shape (n, 3); otherwise numpy
raises `ValueError`, modelled as `none`. -/
def NDArray.reshapeNeg1x3 (v : NDArray) : Option NDArray :=
  if v.data.length % 3 == 0 then
    some ⟨v.data, [v.data.length / 3, 3], v.writeable⟩
  else
    none

/-- Embedding of `ConformerRecord._validate_coordinates` (record.py lines
46-53): reshape to `(-1, 3)` (ValueError when impossible), then set
`v.flags.writeable = False`. -/
def _validate_coordinates (v : NDArray) : Option NDArray :=
  match v.reshapeNeg1x3 with
  | none => none
  | some w => some ⟨w.data, w.shape, false⟩

/-- Embedding of `ConformerRecord` (record.py): a pydantic model whose single
relevant field is the validated coordinate array. -/
structure ConformerRecord where
  coordinates : NDArray
deriving DecidableEq

/-- Construction of a `ConformerRecord` runs the pydantic validators on the
coordinates field; validation failure aborts construction. -/
def ConformerRecord.construct (coordinates : NDArray) : Option ConformerRecord :=
  (_validate_coordinates coordinates).map ConformerRecord.mk

/-- Atom count implied by a mapped structural string. In a mapped SMILES
every atom carries an atom-map annotation of the form `:i`, so the atom
count is the number of map colons (glossary: character positions encode an
explicit atom index). Used only to state the shape-versus-atom-count
mismatch. -/
def mappedSmilesAtomCount (s : String) : Nat :=
  (s.toList.filter (fun c => c == ':')).length

/-- Embedding of `QMConformerRecord` (models.py): coordinates plus the
reference energy. -/
structure QMConformerRecord where
  coordinates : NDArray
  energy : Int
deriving DecidableEq

/-- Embedding of `MoleculeRecord` (models.py): the QCArchive source
identifier (numeric, used as the ascending sort key), the final energy, the
mapped SMILES string, the InChI key (the structural key), and the owned QM
conformer. -/
structure MoleculeRecord where
  qcarchive_id : Nat
  qcarchive_energy : Int
  mapped_smiles : String
  inchi_key : String
  conformer : QMConformerRecord
deriving DecidableEq

/-- One row of the `molecules` table: surrogate id, structural key, mapped
structural string. -/
structure MoleculeRow where
  id : Nat
  inchi_key : String
  mapped_smiles : String
deriving DecidableEq

/-- One row of the QM conformer table: owning molecule id, source identifier,
coordinates and energy. -/
structure QMRow where
  molecule_id : Nat
  qcarchive_id : Nat
  coordinates : NDArray
  energy : Int
deriving DecidableEq

/-- The relational store contents: molecule rows and QM conformer rows, each
in insertion order. -/
structure DB where
  molecules : List MoleculeRow
  qm_conformers : List QMRow
deriving DecidableEq

def emptyDB : DB := ⟨[], []⟩

/-- Modelled from the spec: `DBSessionManager._store_single_molecule_record`
lives in `ibstore._session`, which is not under src (only its caller
`MoleculeStore.store` is). Per spec 4.5, storing a record performs
"the same dedup-by-structural-key resolution (existing Molecule row reused,
new one created only for unseen keys)" and inserts one QMConformerRecord for
the entry. Surrogate ids are assigned sequentially on first insertion. -/
def _store_single_molecule_record (r : MoleculeRecord) (db : DB) : DB :=
  match db.molecules.find? (fun m => m.inchi_key == r.inchi_key) with
  | some row =>
      ⟨db.molecules,
       db.qm_conformers ++ [⟨row.id, r.qcarchive_id, r.conformer.coordinates, r.conformer.energy⟩]⟩
  | none =>
      let newId := db.molecules.length + 1
      ⟨db.molecules ++ [⟨newId, r.inchi_key, r.mapped_smiles⟩],
       db.qm_conformers ++ [⟨newId, r.qcarchive_id, r.conformer.coordinates, r.conformer.energy⟩]⟩

/-- Ingesting a list of records stores them one at a time, in order, exactly
as the loop body of `MoleculeStore.store` (_store.py lines 111-113) does. -/
def ingest (db : DB) (rs : List MoleculeRecord) : DB :=
  rs.foldl (fun d r => _store_single_molecule_record r d) db

/-- Embedding of `MoleculeStore.get_smiles` (_store.py lines 87-92): the
distinct mapped SMILES strings of the molecule table. -/
def get_smiles (db : DB) : List String :=
  (db.molecules.map (fun m => m.mapped_smiles)).dedup

/-- Observable outcome of one `_get_session` transaction scope: the value or
re-raised exception, the committed store contents afterwards, and how many
commits and rollbacks were issued. -/
structure SessionOutcome (E : Type) where
  result : Except E Unit
  committed : DB
  commits : Nat
  rollbacks : Nat

/-- Embedding of `MoleculeStore._get_session` (_store.py lines 50-60): run
the body against the session; on normal completion commit once; on any
exception roll back, leaving the committed contents untouched, and re-raise
the same exception. -/
def _get_session {E : Type} (body : DB → Except E DB) (committed : DB) : SessionOutcome E :=
  match body committed with
  | Except.ok s => ⟨Except.ok (), s, 1, 0⟩
  | Except.error e => ⟨Except.error e, committed, 0, 1⟩

/-- The `records` argument of `MoleculeStore.store`: Python allows either a
bare `MoleculeRecord` (detected by the `isinstance` check) or a collection
of records. -/
inductive StoreArg
  | single (r : MoleculeRecord)
  | batch (rs : List MoleculeRecord)

/-- Embedding of `MoleculeStore.store` (_store.py lines 94-113): a bare
record is wrapped into a one-element list, then every record is stored by
the per-record session action inside a single `_get_session` scope. The
per-record action is the (fallible) `db._store_single_molecule_record`,
taken as a parameter because `DBSessionManager` is not under src. -/
def MoleculeStore.store {E : Type} (storeSingleAction : MoleculeRecord → DB → Except E DB)
    (records : StoreArg) (db : DB) : SessionOutcome E :=
  let records' := match records with
    | StoreArg.single r => [r]
    | StoreArg.batch rs => rs
  _get_session (fun d => records'.foldlM (fun acc r => storeSingleAction r acc) d) db

/-- The pure dedup action lifted into the session monad: the infallible
instance of the per-record store action. -/
def storeSingleOk {E : Type} : MoleculeRecord → DB → Except E DB :=
  fun r d => Except.ok (_store_single_molecule_record r d)

/-- Modelled from the spec: the query "list source ids for a molecule id" of
spec 4.5; `MoleculeStore.get_qcarchive_ids_by_molecule_id` is not under src
(only its tests are). It reads the QM conformer rows of the given molecule
in stored order. -/
def get_qcarchive_ids_by_molecule_id (db : DB) (molecule_id : Nat) : List Nat :=
  (db.qm_conformers.filter (fun c => c.molecule_id == molecule_id)).map QMRow.qcarchive_id

/-- Modelled from the spec: `MoleculeStore.from_qcsubmit_collection` is not
under src (only its tests are). Per spec 4.5 it computes structural keys,
groups by key, creates one Molecule row per distinct key and "inserts one
QMConformerRecord per entry, sorted deterministically by source identifier
within a molecule so that repeated ingestion of a shuffled input collection
yields the same stored order": entries are processed in ascending source-id
order and stored through the dedup-by-key insertion. -/
def from_qcsubmit_collection (rs : List MoleculeRecord) : DB :=
  ingest emptyDB (List.insertionSort (fun a b => a.qcarchive_id ≤ b.qcarchive_id) rs)

/-- Embedding of `MinimizationInput` (_minimize.py lines 62-79). -/
structure MinimizationInput where
  inchi_key : String
  qcarchive_id : String
  force_field : String
  mapped_smiles : String
  coordinates : NDArray
deriving DecidableEq

/-- Embedding of `MinimizationResult` (_minimize.py lines 82-88). -/
structure MinimizationResult where
  inchi_key : String
  qcarchive_id : String
  force_field : String
  mapped_smiles : String
  coordinates : NDArray
  energy : Int
deriving DecidableEq

/-- Embedding of `FORCE_FIELDS` (_minimize.py lines 20-25): a static,
eagerly built module-level dict with exactly four openff entries; each
loaded force field is modelled by the offxml name it was parsed from. -/
def FORCE_FIELDS : List (String × String) :=
  [("openff-1.0.0", "openff_unconstrained-1.0.0.offxml"),
   ("openff-1.3.0", "openff_unconstrained-1.3.0.offxml"),
   ("openff-2.0.0", "openff_unconstrained-2.0.0.offxml"),
   ("openff-2.1.0", "openff_unconstrained-2.1.0.offxml")]

/-- The external cheminformatics/physics interface used by `_run_openmm`:
molecule construction from InChI and from mapped SMILES, the isomorphism
oracle returning an atom map, `Molecule.remap` (which returns a remapped
copy; it does not mutate its receiver), OpenMM system creation from a force
field and a topology, and the energy minimizer. -/
structure Toolkit (Mol Sys : Type) where
  from_inchi : String → Mol
  from_mapped_smiles : String → Mol
  are_isomorphic : Mol → Mol → Bool × List (Nat × Nat)
  remap : Mol → List (Nat × Nat) → Mol
  create_openmm_system : String → Mol → Sys
  minimizeEngine : Sys → NDArray → NDArray × Int

/-- Exceptions a worker can raise: the failed isomorphism assertion
(_minimize.py lines 108-112) and the KeyError of the `FORCE_FIELDS` dict
lookup (_minimize.py line 116). -/
inductive MinimizeError
  | structureMismatch (inchi_key : String) (mapped_smiles : String)
  | keyError (force_field : String)
deriving DecidableEq

/-- Embedding of `_run_openmm` (_minimize.py lines 91-146), following the
source line by line: build a molecule from the InChI key and one from the
mapped SMILES, assert isomorphism, call `remap` exactly as the source does —
as a bare statement whose returned copy is discarded — look the force field
up in the static `FORCE_FIELDS` dict, build the system from `molecule`, and
minimize from the input positions. -/
def _run_openmm {Mol Sys : Type} (tk : Toolkit Mol Sys) (input : MinimizationInput) :
    Except MinimizeError MinimizationResult :=
  let inchi_key := input.inchi_key
  let qcarchive_id := input.qcarchive_id
  let positions := input.coordinates
  let molecule := tk.from_inchi inchi_key
  let molecule_from_smiles := tk.from_mapped_smiles input.mapped_smiles
  let iso := tk.are_isomorphic molecule molecule_from_smiles
  if iso.1 then
    let _discarded := tk.remap molecule iso.2
    match FORCE_FIELDS.lookup input.force_field with
    | none => Except.error (MinimizeError.keyError input.force_field)
    | some ff =>
      let system := tk.create_openmm_system ff molecule
      let minimized := tk.minimizeEngine system positions
      Except.ok ⟨inchi_key, qcarchive_id, input.force_field, input.mapped_smiles,
                 minimized.1, minimized.2⟩
  else
    Except.error (MinimizeError.structureMismatch inchi_key input.mapped_smiles)

/-- Modelled from the spec: spec 4.2 requires that after the isomorphism
check "the resulting atom permutation is applied so that
`starting_coordinates` (given in the caller's atom order) is reinterpreted
in the canonical atom order before the physics engine sees it" — i.e. the
remapped molecule (aligned with the caller's coordinate order) is the one
from which the system is built. This is the intended behaviour against which
the source's discarded `remap` call is compared. -/
def _run_openmm_spec {Mol Sys : Type} (tk : Toolkit Mol Sys) (input : MinimizationInput) :
    Except MinimizeError MinimizationResult :=
  let inchi_key := input.inchi_key
  let qcarchive_id := input.qcarchive_id
  let positions := input.coordinates
  let molecule := tk.from_inchi inchi_key
  let molecule_from_smiles := tk.from_mapped_smiles input.mapped_smiles
  let iso := tk.are_isomorphic molecule molecule_from_smiles
  if iso.1 then
    let remapped := tk.remap molecule iso.2
    match FORCE_FIELDS.lookup input.force_field with
    | none => Except.error (MinimizeError.keyError input.force_field)
    | some ff =>
      let system := tk.create_openmm_system ff remapped
      let minimized := tk.minimizeEngine system positions
      Except.ok ⟨inchi_key, qcarchive_id, input.force_field, input.mapped_smiles,
                 minimized.1, minimized.2⟩
  else
    Except.error (MinimizeError.structureMismatch inchi_key input.mapped_smiles)

/-- One row of the grouped minimization input blob: the per-conformer data
`_minimize_blob` reads out of each entry. -/
structure BlobRow where
  qcarchive_id : String
  mapped_smiles : String
  coordinates : NDArray
deriving DecidableEq

/-- The flattening loop of `_minimize_blob` (_minimize.py lines 36-46): walk
the groups in dict order and their rows in order, building one
`MinimizationInput` per row, all sharing the batch force field. -/
def buildMinimizationInputs (input : List (String × List BlobRow)) (force_field : String) :
    List MinimizationInput :=
  (input.map (fun g => g.2.map (fun row =>
    (⟨g.1, row.qcarchive_id, force_field, row.mapped_smiles, row.coordinates⟩
      : MinimizationInput)))).flatten

/-- The pool's completed results under a given completion schedule: `order`
lists the submission indices in the order the workers finish them, and each
completion carries its submission index alongside its result. -/
def poolCompletedResults {α β : Type} (worker : α → β) (inputs : List α) (order : List Nat) :
    List (Nat × β) :=
  order.filterMap (fun i => (inputs[i]?).map (fun a => (i, worker a)))

/-- `Pool.imap` semantics: whatever order the workers complete in, the
results are handed back to the consumer in submission order — the result for
submission index 0 first, then index 1, and so on. -/
def imapResults {α β : Type} (worker : α → β) (inputs : List α) (order : List Nat) : List β :=
  (List.finRange inputs.length).filterMap
    (fun i => ((poolCompletedResults worker inputs order).find? (fun p => p.1 == i.1)).map
      (fun p => p.2))

/-- The aggregation step `returned[result.inchi_key].append(result)`
(_minimize.py line 57) against a `defaultdict(list)`: append to the existing
group of the result's key, or create that group at the end. -/
def appendToGroup (acc : List (String × List MinimizationResult)) (r : MinimizationResult) :
    List (String × List MinimizationResult) :=
  if acc.any (fun p => p.1 == r.inchi_key) then
    acc.map (fun p => if p.1 == r.inchi_key then (p.1, p.2 ++ [r]) else p)
  else
    acc ++ [(r.inchi_key, [r])]

/-- Reading one group out of the returned mapping. -/
def lookupGroup (k : String) (groups : List (String × List MinimizationResult)) :
    Option (List MinimizationResult) :=
  (groups.find? (fun p => p.1 == k)).map (fun p => p.2)

/-- Embedding of `_minimize_blob` (_minimize.py lines 28-59), parameterized
over the per-item worker (`_run_openmm` in the source) and over the pool's
completion schedule: flatten the grouped input, fan out through the pool,
consume the results in the order `imap` yields them, and group them by the
result's InChI key. -/
def _minimize_blob (worker : MinimizationInput → MinimizationResult)
    (input : List (String × List BlobRow)) (force_field : String) (order : List Nat) :
    List (String × List MinimizationResult) :=
  (imapResults worker (buildMinimizationInputs input force_field) order).foldl appendToGroup []

/-- `Molecule.remap` semantics for the demo molecules (atom-label lists):
with a current-to-new atom map, the atom at old position `i` moves to new
position `amap i`. -/
def demoRemap (m : List Nat) (amap : List (Nat × Nat)) : List Nat :=
  (List.finRange m.length).map (fun j =>
    match amap.find? (fun p => p.2 == j.1) with
    | some p => m.getD p.1 0
    | none => 0)

/-- A concrete toolkit over two-atom molecules, used to evaluate
`_run_openmm` at concrete inputs: molecules are atom-label lists, the
isomorphism oracle recognises a reversed or identical labelling and returns
the corresponding atom map, a system is its force field plus topology, and
the engine reports the input coordinates together with an energy that
depends on the first atom of the topology it was given (so that the atom
order the engine sees is observable). -/
def tkDemo : Toolkit (List Nat) (String × List Nat) :=
  ⟨fun _ => [5, 7],
   fun s => if s == "[C:2][C:1]" then [7, 5] else if s == "[C:1][C:2]" then [5, 7] else [1, 2],
   fun m n =>
     if n = m.reverse then (true, [(0, 1), (1, 0)])
     else if n = m then (true, [(0, 0), (1, 1)])
     else (false, []),
   demoRemap,
   fun ff mol => (ff, mol),
   fun sys coords => (coords, Int.ofNat (sys.2.headD 0))⟩

/-- A two-atom input whose mapped SMILES lists the atoms in the order
opposite to the InChI-derived one, so the isomorphism atom map is the swap
permutation. -/
def inpSwapped : MinimizationInput :=
  ⟨"IK57", "qc-1", "openff-2.0.0", "[C:2][C:1]", ⟨[0, 0, 0, 1, 1, 1], [2, 3], true⟩⟩

/-- An input whose mapped SMILES denotes a different molecule than its InChI
key, so the isomorphism assertion fails. -/
def inpMismatch : MinimizationInput :=
  ⟨"IK57", "qc-2", "openff-2.0.0", "[N:1][N:2]", ⟨[0, 0, 0, 1, 1, 1], [2, 3], true⟩⟩

/-- An input whose force-field identifier is an existing filesystem path, as
in `test_finds_local_force_field`. -/
def inpPathForceField : MinimizationInput :=
  ⟨"IK57", "qc-3", "/tmp/fOOOO.offxml", "[C:2][C:1]", ⟨[0, 0, 0, 1, 1, 1], [2, 3], true⟩⟩

/-- An input naming the plugin-contributed force field exercised by
`test_plugin_loadable`. -/
def inpPluginForceField : MinimizationInput :=
  ⟨"IK57", "qc-4", "de-force-1.0.1", "[C:2][C:1]", ⟨[0, 0, 0, 1, 1, 1], [2, 3], true⟩⟩

/-- Claim C10: `MoleculeStore.store` accepts either a collection of records
or one bare record; a bare record is wrapped into a one-element batch, so
storing `r` and storing `[r]` have exactly the same effect on the store. -/
theorem C10_store_single_record_equals_singleton_batch {E : Type}
    (f : MoleculeRecord → DB → Except E DB) (r : MoleculeRecord) (db : DB) :
    MoleculeStore.store f (StoreArg.single r) db = MoleculeStore.store f (StoreArg.batch [r]) db :=
  rfl

/-- Claim C3: every mutating store operation runs in a single `_get_session`
transaction scope: if the body raises, the transaction is rolled back in
full (the committed contents are unchanged, zero commits, one rollback) and
the same exception is re-raised; if the body succeeds, the transaction
commits exactly once (and never rolls back); and `MoleculeStore.store` is
exactly such a scope around the whole batch. -/
theorem C3_single_transaction_scope {E : Type} (body : DB → Except E DB) (db : DB)
    (f : MoleculeRecord → DB → Except E DB) (records : StoreArg) :
    (∀ e, body db = Except.error e →
      (_get_session body db).result = Except.error e ∧
      (_get_session body db).committed = db ∧
      (_get_session body db).commits = 0 ∧
      (_get_session body db).rollbacks = 1) ∧
    (∀ s, body db = Except.ok s →
      (_get_session body db).result = Except.ok () ∧
      (_get_session body db).committed = s ∧
      (_get_session body db).commits = 1 ∧
      (_get_session body db).rollbacks = 0) ∧
    MoleculeStore.store f records db =
      _get_session (fun d =>
        (match records with
         | StoreArg.single r => [r]
         | StoreArg.batch rs => rs).foldlM (fun acc r => f r acc) d) db := by
  refine ⟨?_, ?_, rfl⟩
  · intro e he
    simp [_get_session, he]
  · intro s hs
    simp [_get_session, hs]

/-- A session body that raises. -/
def bodyErrC3 : DB → Except Unit DB := fun _ => Except.error ()

/-- A session body that completes normally. -/
def bodyOkC3 : DB → Except Unit DB := fun d => Except.ok d

/-- Witness for claim C3 at concrete inputs: a raising body leaves the empty
store committed untouched with one rollback and re-raises, and a completing
body commits once. -/
theorem C3_witness :
    (_get_session bodyErrC3 emptyDB).result = Except.error () ∧
    (_get_session bodyErrC3 emptyDB).committed = emptyDB ∧
    (_get_session bodyErrC3 emptyDB).rollbacks = 1 ∧
    (_get_session bodyOkC3 emptyDB).commits = 1 :=
  ⟨((C3_single_transaction_scope bodyErrC3 emptyDB storeSingleOk (StoreArg.batch [])).1 () rfl).1,
   ((C3_single_transaction_scope bodyErrC3 emptyDB storeSingleOk (StoreArg.batch [])).1 () rfl).2.1,
   ((C3_single_transaction_scope bodyErrC3 emptyDB storeSingleOk (StoreArg.batch [])).1 () rfl).2.2.2,
   ((C3_single_transaction_scope bodyOkC3 emptyDB storeSingleOk (StoreArg.batch [])).2.1
     emptyDB rfl).2.2.1⟩

/-- The coordinate array of the C5 counterexample: 12 elements, i.e. a
4-atom-shaped array offered for a 3-atom molecule. -/
def arrC5 : NDArray := ⟨[0, 0, 0, 1, 1, 1, 2, 2, 2, 3, 3, 3], [12], true⟩

/-- Claim C5 counterexample: record construction accepts a coordinate array
whose element count (12) is a multiple of 3 but is not 3 times the atom
count (3) implied by the owning molecule's structural string (water,
`[H:1][O:2][H:3]`), contradicting the claim that such an array is not
accepted. -/
theorem C5_counterexample_wrong_atom_count_accepted :
    (ConformerRecord.construct arrC5).isSome = true ∧
    arrC5.data.length % 3 = 0 ∧
    arrC5.data.length ≠ 3 * mappedSmilesAtomCount "[H:1][O:2][H:3]" := by
  decide

/-- Claim C5 (amended): `ConformerRecord` construction accepts a coordinate
array exactly when its element count is a multiple of 3 — the reshape to
`(-1, 3)` is the only check, and no comparison against the owning molecule's
atom count is performed. -/
theorem C5_validation_accepts_exactly_multiples_of_three (v : NDArray) :
    (ConformerRecord.construct v).isSome ↔ v.data.length % 3 = 0 := by
  simp only [ConformerRecord.construct, _validate_coordinates, NDArray.reshapeNeg1x3]
  by_cases h : v.data.length % 3 = 0
  · simp [h]
  · simp [h]

/-- The coordinate array of the C9 counterexample. -/
def arrC9 : NDArray := ⟨[1, 2, 3, 4, 5, 6], [6], true⟩

/-- The conformer record that construction from `arrC9` produces. -/
def recC9 : ConformerRecord := ⟨⟨[1, 2, 3, 4, 5, 6], [2, 3], false⟩⟩

/-- Claim C9 counterexample: the claim asserts the caller can mutate a
returned record "including its coordinate array", but validation at record
construction sets the array's writeable flag to false (record.py line 52),
so every conformer record the store hands out has a frozen coordinate array
— here evaluated on a concrete writeable input array. -/
theorem C9_counterexample_frozen_coordinates :
    (ConformerRecord.construct arrC9).map (fun r => r.coordinates.writeable) = some false :=
  rfl

/-- Claim C9 (amended): every conformer record produced by coordinate
validation has its coordinate array marked read-only, so a caller cannot
mutate a returned snapshot's coordinates in place (and hence cannot reach
the store's contents through them). -/
theorem C9_amended_query_snapshots_frozen (v : NDArray) (r : ConformerRecord)
    (h : ConformerRecord.construct v = some r) : r.coordinates.writeable = false := by
  simp only [ConformerRecord.construct, _validate_coordinates, NDArray.reshapeNeg1x3] at h
  by_cases hc : v.data.length % 3 = 0
  · simp [hc] at h
    rw [← h]
  · simp [hc] at h

/-- Witness for claim C9 at a concrete input: the record constructed from
`arrC9` has a frozen coordinate array. -/
theorem C9_witness : recC9.coordinates.writeable = false :=
  C9_amended_query_snapshots_frozen arrC9 recC9 rfl

/-- Claim C4: force-field resolution. The source resolves the identifier by
indexing the static, eagerly built four-entry `FORCE_FIELDS` dict; there is
no filesystem-path branch, no plugin-registry branch, no mainline fallback
and no lazy per-identifier cache, so the path identifier of
`test_finds_local_force_field` and the plugin identifier of
`test_plugin_loadable` both raise KeyError, while only the four hardcoded
openff names resolve. This evaluates `_run_openmm` at both failing
identifiers. -/
theorem C4_force_field_static_dict_lookup :
    FORCE_FIELDS.lookup "/tmp/fOOOO.offxml" = none ∧
    FORCE_FIELDS.lookup "de-force-1.0.1" = none ∧
    FORCE_FIELDS.lookup "openff-2.0.0" = some "openff_unconstrained-2.0.0.offxml" ∧
    _run_openmm tkDemo inpPathForceField =
      Except.error (MinimizeError.keyError "/tmp/fOOOO.offxml") ∧
    _run_openmm tkDemo inpPluginForceField =
      Except.error (MinimizeError.keyError "de-force-1.0.1") := by
  refine ⟨rfl, rfl, rfl, rfl, rfl⟩

/-- Claim C7: the worker does construct a molecule from the structural key
and one from the mapped structural string, and a failed isomorphism check
aborts that single input with a structure-mismatch error (first conjunct).
But the atom permutation is never applied: the source calls
`molecule.remap(mapping_dict=atom_map)` as a bare statement and
`Molecule.remap` returns a remapped copy without mutating its receiver, so
the discarded-copy code path hands the engine the unremapped molecule — at a
concrete swapped-order input the code's observable energy (5, from the
unremapped topology head) differs from the spec-mandated behaviour's
(7, from the remapped topology head). -/
theorem C7_remap_copy_discarded :
    _run_openmm tkDemo inpMismatch =
      Except.error (MinimizeError.structureMismatch "IK57" "[N:1][N:2]") ∧
    (_run_openmm tkDemo inpSwapped).map MinimizationResult.energy = Except.ok 5 ∧
    (_run_openmm_spec tkDemo inpSwapped).map MinimizationResult.energy = Except.ok 7 ∧
    (_run_openmm tkDemo inpSwapped).map MinimizationResult.energy ≠
      (_run_openmm_spec tkDemo inpSwapped).map MinimizationResult.energy := by
  refine ⟨rfl, rfl, rfl, ?_⟩
  intro h
  rw [show (_run_openmm tkDemo inpSwapped).map MinimizationResult.energy = Except.ok 5 from rfl,
      show (_run_openmm_spec tkDemo inpSwapped).map MinimizationResult.energy = Except.ok 7
        from rfl] at h
  simp at h

/-- If the record's structural key is already present, the molecule table is
left unchanged: insertion resolves to the existing row. -/
theorem molecules_unchanged_of_key_mem (r : MoleculeRecord) (db : DB)
    (h : r.inchi_key ∈ db.molecules.map MoleculeRow.inchi_key) :
    (_store_single_molecule_record r db).molecules = db.molecules := by
  have hsome : (db.molecules.find? (fun m => m.inchi_key == r.inchi_key)).isSome := by
    rw [List.find?_isSome]
    rcases List.mem_map.mp h with ⟨m, hm, hkey⟩
    exact ⟨m, hm, by simp [hkey]⟩
  cases hf : db.molecules.find? (fun m => m.inchi_key == r.inchi_key) with
  | none => rw [hf] at hsome; simp at hsome
  | some row => simp [_store_single_molecule_record, hf]

/-- If the record's structural key is unseen, exactly one new molecule row is
appended. -/
theorem molecules_append_of_key_not_mem (r : MoleculeRecord) (db : DB)
    (h : r.inchi_key ∉ db.molecules.map MoleculeRow.inchi_key) :
    (_store_single_molecule_record r db).molecules =
      db.molecules ++ [⟨db.molecules.length + 1, r.inchi_key, r.mapped_smiles⟩] := by
  have hnone : db.molecules.find? (fun m => m.inchi_key == r.inchi_key) = none := by
    rw [List.find?_eq_none]
    intro m hm
    simp only [beq_iff_eq]
    intro hkey
    exact h (List.mem_map.mpr ⟨m, hm, hkey⟩)
  simp [_store_single_molecule_record, hnone]

/-- Storing one record never removes molecule rows. -/
theorem molecules_monotone_store_single (r : MoleculeRecord) (db : DB) (m : MoleculeRow)
    (h : m ∈ db.molecules) : m ∈ (_store_single_molecule_record r db).molecules := by
  by_cases hkey : r.inchi_key ∈ db.molecules.map MoleculeRow.inchi_key
  · rw [molecules_unchanged_of_key_mem r db hkey]
    exact h
  · rw [molecules_append_of_key_not_mem r db hkey]
    exact List.mem_append.mpr (Or.inl h)

/-- Ingestion never removes molecule rows. -/
theorem molecules_monotone_ingest (m : MoleculeRow) :
    ∀ (rs : List MoleculeRecord) (db : DB), m ∈ db.molecules → m ∈ (ingest db rs).molecules := by
  intro rs
  induction rs with
  | nil => intro db h; exact h
  | cons r rs ih =>
      intro db h
      exact ih (_store_single_molecule_record r db) (molecules_monotone_store_single r db m h)

/-- Every molecule row after ingestion either was already there or carries
the structural key and mapped string of one of the ingested records. -/
theorem ingest_molecules_from_inputs (m : MoleculeRow) :
    ∀ (rs : List MoleculeRecord) (db : DB), m ∈ (ingest db rs).molecules →
      m ∈ db.molecules ∨
        ∃ r, r ∈ rs ∧ m.inchi_key = r.inchi_key ∧ m.mapped_smiles = r.mapped_smiles := by
  intro rs
  induction rs with
  | nil => intro db h; exact Or.inl h
  | cons r rs ih =>
      intro db h
      rcases ih (_store_single_molecule_record r db) h with hmem | ⟨r', hr', hk, hs⟩
      · by_cases hkey : r.inchi_key ∈ db.molecules.map MoleculeRow.inchi_key
        · rw [molecules_unchanged_of_key_mem r db hkey] at hmem
          exact Or.inl hmem
        · rw [molecules_append_of_key_not_mem r db hkey] at hmem
          rcases List.mem_append.mp hmem with hold | hnew
          · exact Or.inl hold
          · rcases List.mem_singleton.mp hnew with rfl
            exact Or.inr ⟨r, List.mem_cons_self r rs, rfl, rfl⟩
      · exact Or.inr ⟨r', List.mem_cons_of_mem r hr', hk, hs⟩

/-- After ingesting a record, some molecule row carries its structural key. -/
theorem key_present_after_ingest (r : MoleculeRecord) :
    ∀ (rs : List MoleculeRecord), r ∈ rs → ∀ db : DB,
      ∃ m, m ∈ (ingest db rs).molecules ∧ m.inchi_key = r.inchi_key := by
  intro rs
  induction rs with
  | nil => intro h; cases h
  | cons a rs ih =>
      intro h db
      rcases List.mem_cons.mp h with rfl | hmem
      · by_cases hkey : r.inchi_key ∈ db.molecules.map MoleculeRow.inchi_key
        · rcases List.mem_map.mp hkey with ⟨row, hrow, hrk⟩
          exact ⟨row, molecules_monotone_ingest row rs _
            (molecules_monotone_store_single r db row hrow), hrk⟩
        · refine ⟨⟨db.molecules.length + 1, r.inchi_key, r.mapped_smiles⟩, ?_, rfl⟩
          refine molecules_monotone_ingest _ rs _ ?_
          rw [molecules_append_of_key_not_mem r db hkey]
          exact List.mem_append.mpr (Or.inr (List.mem_singleton.mpr rfl))
      · exact ih hmem (_store_single_molecule_record a db)

/-- One insertion adds the record's key to the set of stored structural
keys. -/
theorem store_single_keys_toFinset (r : MoleculeRecord) (db : DB) :
    ((_store_single_molecule_record r db).molecules.map MoleculeRow.inchi_key).toFinset =
      insert r.inchi_key (db.molecules.map MoleculeRow.inchi_key).toFinset := by
  by_cases h : r.inchi_key ∈ db.molecules.map MoleculeRow.inchi_key
  · rw [molecules_unchanged_of_key_mem r db h]
    rw [Finset.insert_eq_self.mpr (List.mem_toFinset.mpr h)]
  · rw [molecules_append_of_key_not_mem r db h]
    rw [List.map_append, List.toFinset_append]
    simp [Finset.union_comm, Finset.insert_eq]

/-- The set of stored structural keys after ingestion is the old set united
with the keys of the ingested records. -/
theorem ingest_keys_toFinset (rs : List MoleculeRecord) (db : DB) :
    ((ingest db rs).molecules.map MoleculeRow.inchi_key).toFinset =
      (db.molecules.map MoleculeRow.inchi_key).toFinset ∪
        (rs.map MoleculeRecord.inchi_key).toFinset := by
  induction rs generalizing db with
  | nil => simp [ingest]
  | cons r rs ih =>
      have : ingest db (r :: rs) = ingest (_store_single_molecule_record r db) rs := rfl
      rw [this, ih, store_single_keys_toFinset]
      rw [List.map_cons, List.toFinset_cons, Finset.insert_union, Finset.union_insert]

/-- Stored structural keys stay pairwise distinct across one insertion. -/
theorem store_single_keys_nodup (r : MoleculeRecord) (db : DB)
    (h : (db.molecules.map MoleculeRow.inchi_key).Nodup) :
    ((_store_single_molecule_record r db).molecules.map MoleculeRow.inchi_key).Nodup := by
  by_cases hmem : r.inchi_key ∈ db.molecules.map MoleculeRow.inchi_key
  · rw [molecules_unchanged_of_key_mem r db hmem]; exact h
  · rw [molecules_append_of_key_not_mem r db hmem]
    rw [List.map_append, List.nodup_append]
    refine ⟨h, by simp, ?_⟩
    intro a ha hb
    simp only [List.map_cons, List.map_nil, List.mem_singleton] at hb
    subst hb
    exact hmem ha

/-- Stored structural keys stay pairwise distinct across ingestion. -/
theorem ingest_keys_nodup (rs : List MoleculeRecord) (db : DB)
    (h : (db.molecules.map MoleculeRow.inchi_key).Nodup) :
    ((ingest db rs).molecules.map MoleculeRow.inchi_key).Nodup := by
  induction rs generalizing db with
  | nil => exact h
  | cons r rs ih => exact ih (_store_single_molecule_record r db) (store_single_keys_nodup r db h)

/-- Claim C1: the store holds exactly one molecule row per distinct
structural key. Ingesting records spanning K distinct keys into an empty
store yields exactly K molecule rows; the set of distinct stored structural
strings equals the set of distinct canonical structures among the inputs
(the structural string being canonical, records with equal keys carry equal
strings); and inserting a record whose key is already stored resolves to the
existing row, never creating a duplicate. -/
theorem C1_dedup_invariant (rs : List MoleculeRecord) (db : DB) (r : MoleculeRecord)
    (hcanon : ∀ a, a ∈ rs → ∀ b, b ∈ rs →
      a.inchi_key = b.inchi_key → a.mapped_smiles = b.mapped_smiles)
    (hmem : r.inchi_key ∈ db.molecules.map MoleculeRow.inchi_key) :
    (ingest emptyDB rs).molecules.length = (rs.map MoleculeRecord.inchi_key).toFinset.card ∧
    (get_smiles (ingest emptyDB rs)).toFinset = (rs.map MoleculeRecord.mapped_smiles).toFinset ∧
    (_store_single_molecule_record r db).molecules = db.molecules := by
  refine ⟨?_, ?_, molecules_unchanged_of_key_mem r db hmem⟩
  · have hnodup : ((ingest emptyDB rs).molecules.map MoleculeRow.inchi_key).Nodup :=
      ingest_keys_nodup rs emptyDB (by simp [emptyDB])
    have hset := ingest_keys_toFinset rs emptyDB
    have hempty : ((emptyDB.molecules).map MoleculeRow.inchi_key).toFinset = (∅ : Finset String) := by
      simp [emptyDB]
    rw [hempty, Finset.empty_union] at hset
    calc (ingest emptyDB rs).molecules.length
        = ((ingest emptyDB rs).molecules.map MoleculeRow.inchi_key).length := by
          rw [List.length_map]
      _ = ((ingest emptyDB rs).molecules.map MoleculeRow.inchi_key).toFinset.card :=
          (List.toFinset_card_of_nodup hnodup).symm
      _ = (rs.map MoleculeRecord.inchi_key).toFinset.card := by rw [hset]
  · ext a
    simp only [get_smiles, List.mem_toFinset, List.mem_dedup, List.mem_map]
    constructor
    · rintro ⟨m, hm, rfl⟩
      rcases ingest_molecules_from_inputs m rs emptyDB hm with habs | ⟨x, hx, _, hs⟩
      · simp [emptyDB] at habs
      · exact ⟨x, hx, hs.symm⟩
    · rintro ⟨x, hx, rfl⟩
      rcases key_present_after_ingest x rs hx emptyDB with ⟨m, hm, hk⟩
      rcases ingest_molecules_from_inputs m rs emptyDB hm with habs | ⟨x', hx', hk', hs'⟩
      · simp [emptyDB] at habs
      · refine ⟨m, hm, ?_⟩
        rw [hs']
        exact hcanon x' hx' x hx (by rw [← hk', hk])

/-- A QM conformer shared by the C1 witness records. -/
def confW : QMConformerRecord := ⟨⟨[0, 0, 0], [1, 3], false⟩, -5⟩

/-- Witness records for claim C1: three entries spanning two distinct
structural keys. -/
def rsC1 : List MoleculeRecord :=
  [⟨11, -1, "SMI-A", "KEY-A", confW⟩, ⟨12, -2, "SMI-A", "KEY-A", confW⟩,
   ⟨13, -3, "SMI-B", "KEY-B", confW⟩]

/-- A store already holding a molecule with key KEY-A. -/
def dbC1 : DB := ⟨[⟨1, "KEY-A", "SMI-A"⟩], []⟩

/-- A record structurally identical to the stored KEY-A molecule. -/
def rC1 : MoleculeRecord := ⟨14, -4, "SMI-A", "KEY-A", confW⟩

/-- Witness for claim C1 at concrete inputs: three entries over two keys
yield exactly two molecule rows, the stored structural strings are the two
distinct input strings, and re-inserting a structurally identical record
leaves the molecule table unchanged. -/
theorem C1_witness :
    (ingest emptyDB rsC1).molecules.length = (rsC1.map MoleculeRecord.inchi_key).toFinset.card ∧
    (get_smiles (ingest emptyDB rsC1)).toFinset = (rsC1.map MoleculeRecord.mapped_smiles).toFinset ∧
    (_store_single_molecule_record rC1 dbC1).molecules = dbC1.molecules :=
  C1_dedup_invariant rsC1 dbC1 rC1 (by decide) (by decide)

/-- Two permuted lists that are both sorted on a duplicate-free numeric key
are equal. -/
theorem eq_of_perm_of_sorted_on_key {α : Type} (key : α → Nat) :
    ∀ (l₁ l₂ : List α), l₁.Perm l₂ →
      (l₁.map key).Sorted (· ≤ ·) → (l₂.map key).Sorted (· ≤ ·) →
      (l₁.map key).Nodup → l₁ = l₂ := by
  intro l₁
  induction l₁ with
  | nil =>
      intro l₂ hp _ _ _
      exact (List.Perm.eq_nil hp.symm).symm
  | cons a t ih =>
      intro l₂ hp h1 h2 hn
      have hmapeq : (a :: t).map key = l₂.map key :=
        List.eq_of_perm_of_sorted (hp.map key) h1 h2
      cases l₂ with
      | nil => simp at hmapeq
      | cons b t₂ =>
          simp only [List.map_cons] at hmapeq
          have hka : key a = key b := by
            injection hmapeq
          have hmt : t.map key = t₂.map key := by
            injection hmapeq
          have hab : a = b := by
            have hamem : a ∈ b :: t₂ := hp.mem_iff.mp (List.mem_cons_self a t)
            rcases List.mem_cons.mp hamem with h | h
            · exact h
            · exfalso
              have hbin : key a ∈ t₂.map key := List.mem_map_of_mem key h
              have hnotin : key a ∉ t.map key := by
                simp only [List.map_cons, List.nodup_cons] at hn
                exact hn.1
              rw [hmt] at hnotin
              exact hnotin hbin
          subst hab
          have hp' : t.Perm t₂ := hp.cons_inv
          have h1' : (t.map key).Sorted (· ≤ ·) := by
            simp only [List.map_cons] at h1
            exact h1.of_cons
          have h2' : (t₂.map key).Sorted (· ≤ ·) := by
            simp only [List.map_cons] at h2
            exact h2.of_cons
          have hn' : (t.map key).Nodup := by
            simp only [List.map_cons, List.nodup_cons] at hn
            exact hn.2
          rw [ih t₂ hp' h1' h2' hn']

/-- Ingestion appends exactly one QM conformer row per record, in processing
order, whatever the dedup resolution does to the molecule table. -/
theorem ingest_qm_ids :
    ∀ (rs : List MoleculeRecord) (db : DB),
      (ingest db rs).qm_conformers.map QMRow.qcarchive_id =
        db.qm_conformers.map QMRow.qcarchive_id ++ rs.map MoleculeRecord.qcarchive_id := by
  intro rs
  induction rs with
  | nil => intro db; simp [ingest]
  | cons r rs ih =>
      intro db
      have hstep : (_store_single_molecule_record r db).qm_conformers.map QMRow.qcarchive_id =
          db.qm_conformers.map QMRow.qcarchive_id ++ [r.qcarchive_id] := by
        cases hf : db.molecules.find? (fun m => m.inchi_key == r.inchi_key) with
        | some row => simp [_store_single_molecule_record, hf]
        | none => simp [_store_single_molecule_record, hf]
      have hrec : ingest db (r :: rs) = ingest (_store_single_molecule_record r db) rs := rfl
      rw [hrec, ih, hstep]
      simp

/-- The sort performed at ingestion leaves the source identifiers in
ascending order. -/
theorem insertionSort_qcids_sorted (l : List MoleculeRecord) :
    ((List.insertionSort (fun a b => a.qcarchive_id ≤ b.qcarchive_id) l).map
      MoleculeRecord.qcarchive_id).Sorted (· ≤ ·) := by
  haveI ht : IsTotal MoleculeRecord (fun a b => a.qcarchive_id ≤ b.qcarchive_id) :=
    ⟨fun a b => Nat.le_total a.qcarchive_id b.qcarchive_id⟩
  haveI htr : IsTrans MoleculeRecord (fun a b => a.qcarchive_id ≤ b.qcarchive_id) :=
    ⟨fun _ _ _ hab hbc => Nat.le_trans hab hbc⟩
  have hs := List.sorted_insertionSort (fun a b => a.qcarchive_id ≤ b.qcarchive_id) l
  exact List.pairwise_map.mpr hs

/-- Claim C8: ingestion imposes a canonical order regardless of input order.
For any permutation of the input collection (with the spec-guaranteed
distinct source identifiers), ingesting the shuffled collection produces the
very same store, and the list of source identifiers stored for any molecule
id is sorted in ascending order. -/
theorem C8_ingestion_canonical_order (rs rs' : List MoleculeRecord) (molecule_id : Nat)
    (hperm : rs'.Perm rs) (hnodup : (rs.map MoleculeRecord.qcarchive_id).Nodup) :
    from_qcsubmit_collection rs' = from_qcsubmit_collection rs ∧
    (get_qcarchive_ids_by_molecule_id (from_qcsubmit_collection rs) molecule_id).Sorted
      (· ≤ ·) := by
  constructor
  · have hp : (List.insertionSort (fun a b => a.qcarchive_id ≤ b.qcarchive_id) rs').Perm
        (List.insertionSort (fun a b => a.qcarchive_id ≤ b.qcarchive_id) rs) :=
      ((List.perm_insertionSort _ rs').trans hperm).trans (List.perm_insertionSort _ rs).symm
    have hn : ((List.insertionSort (fun a b => a.qcarchive_id ≤ b.qcarchive_id) rs').map
        MoleculeRecord.qcarchive_id).Nodup := by
      have hpp : ((List.insertionSort (fun a b => a.qcarchive_id ≤ b.qcarchive_id) rs').map
          MoleculeRecord.qcarchive_id).Perm (rs.map MoleculeRecord.qcarchive_id) :=
        ((List.perm_insertionSort _ rs').trans hperm).map MoleculeRecord.qcarchive_id
      exact hpp.symm.nodup_iff.mp hnodup
    have heq := eq_of_perm_of_sorted_on_key MoleculeRecord.qcarchive_id _ _ hp
      (insertionSort_qcids_sorted rs') (insertionSort_qcids_sorted rs) hn
    unfold from_qcsubmit_collection
    rw [heq]
  · have hall : ((from_qcsubmit_collection rs).qm_conformers.map QMRow.qcarchive_id).Sorted
        (· ≤ ·) := by
      unfold from_qcsubmit_collection
      rw [ingest_qm_ids]
      have hempty : emptyDB.qm_conformers.map QMRow.qcarchive_id = [] := rfl
      rw [hempty, List.nil_append]
      exact insertionSort_qcids_sorted rs
    have hsub : (get_qcarchive_ids_by_molecule_id (from_qcsubmit_collection rs)
        molecule_id).Sublist
        ((from_qcsubmit_collection rs).qm_conformers.map QMRow.qcarchive_id) := by
      unfold get_qcarchive_ids_by_molecule_id
      exact (List.filter_sublist _).map _
    exact hall.sublist hsub

/-- Witness records for claim C8: four entries over two structural keys with
distinct source identifiers, originally out of order. -/
def rsC8 : List MoleculeRecord :=
  [⟨23, -1, "SMI-A", "KEY-A", confW⟩, ⟨21, -2, "SMI-A", "KEY-A", confW⟩,
   ⟨24, -3, "SMI-B", "KEY-B", confW⟩, ⟨22, -4, "SMI-A", "KEY-A", confW⟩]

/-- A shuffle of `rsC8`. -/
def rsC8sh : List MoleculeRecord :=
  [⟨22, -4, "SMI-A", "KEY-A", confW⟩, ⟨24, -3, "SMI-B", "KEY-B", confW⟩,
   ⟨23, -1, "SMI-A", "KEY-A", confW⟩, ⟨21, -2, "SMI-A", "KEY-A", confW⟩]

/-- Witness for claim C8 at concrete inputs: ingesting the shuffled batch
yields the identical store, and molecule 1's stored source identifiers are
ascending. -/
theorem C8_witness :
    from_qcsubmit_collection rsC8sh = from_qcsubmit_collection rsC8 ∧
    (get_qcarchive_ids_by_molecule_id (from_qcsubmit_collection rsC8) 1).Sorted (· ≤ ·) :=
  C8_ingestion_canonical_order rsC8 rsC8sh 1 (by decide) (by decide)

/-- A filterMap whose function succeeds on every element of the list is a
map. -/
theorem filterMap_eq_map_of_some {γ δ : Type} (l : List γ) (f : γ → Option δ) (g : γ → δ)
    (h : ∀ x ∈ l, f x = some (g x)) : l.filterMap f = l.map g := by
  induction l with
  | nil => rfl
  | cons a t ih =>
      rw [List.filterMap_cons, h a (List.mem_cons_self a t), List.map_cons,
        ih (fun x hx => h x (List.mem_cons_of_mem a hx))]

/-- Under any completion schedule that completes every submitted item
exactly as a permutation of the submission indices, the pool's completed
pile contains, for each submission index, exactly the pair of that index and
the worker's result on the corresponding input — and looking the index up
finds it. -/
theorem find?_poolCompletedResults {α β : Type} (worker : α → β) (inputs : List α)
    (order : List Nat) (horder : order.Perm (List.range inputs.length))
    (i : Fin inputs.length) :
    (poolCompletedResults worker inputs order).find? (fun p => p.1 == i.1) =
      some (i.1, worker (inputs.get i)) := by
  have hmem : (i.1, worker (inputs.get i)) ∈ poolCompletedResults worker inputs order := by
    unfold poolCompletedResults
    rw [List.mem_filterMap]
    refine ⟨i.1, horder.mem_iff.mpr (List.mem_range.mpr i.isLt), ?_⟩
    rw [List.getElem?_eq_getElem i.isLt]
    simp [List.get_eq_getElem]
  have hsome : ((poolCompletedResults worker inputs order).find? (fun p => p.1 == i.1)).isSome := by
    rw [List.find?_isSome]
    exact ⟨_, hmem, by simp⟩
  cases hf : (poolCompletedResults worker inputs order).find? (fun p => p.1 == i.1) with
  | none => rw [hf] at hsome; simp at hsome
  | some p =>
      have hpmem : p ∈ poolCompletedResults worker inputs order := List.mem_of_find?_eq_some hf
      have hpi : p.1 = i.1 := by simpa using List.find?_some hf
      unfold poolCompletedResults at hpmem
      rw [List.mem_filterMap] at hpmem
      rcases hpmem with ⟨j, _, hjp⟩
      cases hget : inputs[j]? with
      | none => rw [hget] at hjp; simp at hjp
      | some a =>
          rw [hget] at hjp
          simp only [Option.map_some', Option.some.injEq] at hjp
          have hj : j = i.1 := by rw [← hjp] at hpi; exact hpi
          subst hj
          rw [List.getElem?_eq_getElem i.isLt, Option.some.injEq] at hget
          subst hget
          rw [← hjp]
          simp [List.get_eq_getElem]

/-- `imap` yields exactly the worker's results in submission order, whatever
(complete, duplicate-free) order the workers finished in. -/
theorem imapResults_eq_map {α β : Type} (worker : α → β) (inputs : List α) (order : List Nat)
    (horder : order.Perm (List.range inputs.length)) :
    imapResults worker inputs order = inputs.map worker := by
  unfold imapResults
  rw [filterMap_eq_map_of_some _ _ (fun i => worker (inputs.get i)) ?_]
  · rw [show (List.finRange inputs.length).map (fun i => worker (inputs.get i)) =
      ((List.finRange inputs.length).map inputs.get).map worker from (List.map_map _ _ _).symm]
    rw [List.finRange_map_get]
  · intro i _
    rw [find?_poolCompletedResults worker inputs order horder i]
    rfl

/-- Appending one result to the grouped mapping extends exactly that
result's group and leaves all other groups unchanged. -/
theorem lookupGroup_appendToGroup (acc : List (String × List MinimizationResult))
    (r : MinimizationResult) (k : String) :
    lookupGroup k (appendToGroup acc r) =
      if r.inchi_key = k then some ((lookupGroup k acc).getD [] ++ [r])
      else lookupGroup k acc := by
  unfold appendToGroup lookupGroup
  by_cases hany : acc.any (fun p => p.1 == r.inchi_key)
  · rw [if_pos hany, List.find?_map]
    have hcomp : ((fun p : String × List MinimizationResult => p.1 == k) ∘
        (fun p : String × List MinimizationResult =>
          if p.1 == r.inchi_key then (p.1, p.2 ++ [r]) else p)) =
        (fun p : String × List MinimizationResult => p.1 == k) := by
      funext p
      by_cases hp : p.1 == r.inchi_key
      · simp [Function.comp, hp]
      · simp [Function.comp, hp]
    rw [hcomp]
    by_cases hrk : r.inchi_key = k
    · subst hrk
      have hsome : (acc.find? (fun p => p.1 == r.inchi_key)).isSome := by
        rw [List.find?_isSome]
        rcases List.any_eq_true.mp hany with ⟨p, hp, hpk⟩
        exact ⟨p, hp, hpk⟩
      cases hfind : acc.find? (fun p => p.1 == r.inchi_key) with
      | none => rw [hfind] at hsome; simp at hsome
      | some p =>
          have hpk : p.1 = r.inchi_key := by simpa using List.find?_some hfind
          simp [hfind, hpk]
    · cases hfind : acc.find? (fun p => p.1 == k) with
      | none => simp [hfind, if_neg hrk]
      | some p =>
          have hpk : p.1 = k := by simpa using List.find?_some hfind
          have hne : p.1 ≠ r.inchi_key := by
            rw [hpk]
            exact fun hc => hrk hc.symm
          simp [hfind, if_neg hrk, hne]
  · rw [if_neg hany, List.find?_append]
    have hnone : acc.find? (fun p => p.1 == r.inchi_key) = none := by
      rw [List.find?_eq_none]
      intro p hp hpk
      exact hany (List.any_eq_true.mpr ⟨p, hp, hpk⟩)
    by_cases hrk : r.inchi_key = k
    · subst hrk
      rw [hnone]
      simp
    · have hsing : ([(r.inchi_key, [r])].find?
          (fun p : String × List MinimizationResult => p.1 == k)) = none := by
        simp [hrk]
      rw [hsing]
      cases hfind : acc.find? (fun p : String × List MinimizationResult => p.1 == k) with
      | none => simp [hfind, if_neg hrk]
      | some p => simp [hfind, if_neg hrk]

/-- The group a key maps to after folding results in arrival order is the
sublist of results carrying that key, in arrival order (absent if there were
none). -/
theorem lookupGroup_groupResults (rs : List MinimizationResult) (k : String) :
    lookupGroup k (rs.foldl appendToGroup []) =
      if rs.filter (fun r => r.inchi_key == k) = [] then none
      else some (rs.filter (fun r => r.inchi_key == k)) := by
  induction rs using List.reverseRecOn with
  | nil => simp [lookupGroup]
  | append_singleton rs r ih =>
      rw [List.foldl_append]
      rw [show List.foldl appendToGroup (List.foldl appendToGroup [] rs) [r] =
        appendToGroup (List.foldl appendToGroup [] rs) r from rfl]
      rw [lookupGroup_appendToGroup, List.filter_append]
      by_cases hrk : r.inchi_key = k
      · rw [if_pos hrk]
        have hfr : [r].filter (fun x => x.inchi_key == k) = [r] := by simp [hrk]
        rw [hfr, ih]
        by_cases he : rs.filter (fun x => x.inchi_key == k) = []
        · rw [he]
          simp
        · rw [if_neg he, if_neg (by simp)]
          simp
      · rw [if_neg hrk]
        have hfr : [r].filter (fun x => x.inchi_key == k) = [] := by simp [hrk]
        rw [hfr, List.append_nil, ih]

/-- Composition of two maps, written with the composed function
eta-expanded. -/
theorem map_map_eta {γ δ ε : Type} (f : γ → δ) (g : δ → ε) (l : List γ) :
    (l.map f).map g = l.map (fun x => g (f x)) := by
  rw [List.map_map]
  rfl

/-- All results produced from one flattened group carry that group's key (the
worker copies the input key into the result), so filtering on a key keeps
the whole block or none of it. -/
theorem filter_worker_block (worker : MinimizationInput → MinimizationResult)
    (hw : ∀ inp, (worker inp).inchi_key = inp.inchi_key)
    (ff k key : String) (rows : List BlobRow) :
    ((rows.map (fun row => worker (⟨key, row.qcarchive_id, ff, row.mapped_smiles,
        row.coordinates⟩ : MinimizationInput))).filter (fun r => r.inchi_key == k)) =
      if key = k then
        rows.map (fun row => worker (⟨key, row.qcarchive_id, ff, row.mapped_smiles,
          row.coordinates⟩ : MinimizationInput))
      else [] := by
  induction rows with
  | nil => simp
  | cons row rows ih =>
      simp only [List.map_cons, List.filter_cons]
      by_cases hkey : key = k
      · subst hkey
        simp [hw, ih]
      · simp [hw, hkey, ih]

/-- The flattening loop splits on the head group. -/
theorem buildMinimizationInputs_cons (g : String × List BlobRow)
    (rest : List (String × List BlobRow)) (ff : String) :
    buildMinimizationInputs (g :: rest) ff =
      (g.2.map (fun row => (⟨g.1, row.qcarchive_id, ff, row.mapped_smiles,
        row.coordinates⟩ : MinimizationInput))) ++ buildMinimizationInputs rest ff := by
  simp [buildMinimizationInputs]

/-- No result carries a key absent from the grouped input. -/
theorem filter_buildInputs_not_mem (worker : MinimizationInput → MinimizationResult)
    (hw : ∀ inp, (worker inp).inchi_key = inp.inchi_key) (ff k : String) :
    ∀ (input : List (String × List BlobRow)), k ∉ input.map Prod.fst →
      ((buildMinimizationInputs input ff).map worker).filter (fun r => r.inchi_key == k) =
        [] := by
  intro input
  induction input with
  | nil => intro _; simp [buildMinimizationInputs]
  | cons g rest ih =>
      intro h
      have hne : g.1 ≠ k := by
        intro hc
        exact h (by simp [List.map_cons, hc])
      have hrest : k ∉ rest.map Prod.fst := by
        intro hc
        exact h (by simp [List.map_cons, hc])
      rw [buildMinimizationInputs_cons, List.map_append, List.filter_append,
        map_map_eta, filter_worker_block worker hw ff k g.1 g.2, if_neg hne,
        List.nil_append]
      exact ih hrest

/-- For a key present in the grouped input (keys being distinct), the
results carrying that key are exactly the worker's results on that group's
rows, in row order. -/
theorem filter_buildInputs_mem (worker : MinimizationInput → MinimizationResult)
    (hw : ∀ inp, (worker inp).inchi_key = inp.inchi_key) (ff k : String)
    (rows : List BlobRow) :
    ∀ (input : List (String × List BlobRow)), (input.map Prod.fst).Nodup →
      (k, rows) ∈ input →
      ((buildMinimizationInputs input ff).map worker).filter (fun r => r.inchi_key == k) =
        rows.map (fun row => worker (⟨k, row.qcarchive_id, ff, row.mapped_smiles,
          row.coordinates⟩ : MinimizationInput)) := by
  intro input
  induction input with
  | nil => intro _ h; cases h
  | cons g rest ih =>
      intro hnod hmem
      rw [List.map_cons] at hnod
      have hhead : g.1 ∉ rest.map Prod.fst := (List.nodup_cons.mp hnod).1
      have htail : (rest.map Prod.fst).Nodup := (List.nodup_cons.mp hnod).2
      rw [buildMinimizationInputs_cons, List.map_append, List.filter_append, map_map_eta]
      rcases List.mem_cons.mp hmem with heq | hmem'
      · subst heq
        rw [filter_worker_block worker hw ff k k rows, if_pos rfl]
        rw [filter_buildInputs_not_mem worker hw ff k rest hhead, List.append_nil]
      · have hkrest : k ∈ rest.map Prod.fst := List.mem_map.mpr ⟨(k, rows), hmem', rfl⟩
        have hg1 : g.1 ≠ k := by
          intro hc
          rw [hc] at hhead
          exact hhead hkrest
        rw [filter_worker_block worker hw ff k g.1 g.2, if_neg hg1, List.nil_append]
        exact ih htail hmem'

/-- Claim C2: for a grouped batch and force field, batch minimization
returns a mapping from structural key to that key's results, the results
within each key appearing in the order of the corresponding inputs' original
submission indices, independent of the pool's completion order: any two
complete completion schedules produce identical output, and each input
group's key maps to exactly the worker's results on that group's rows in
original row order. -/
theorem C2_batch_results_ordered_by_submission
    (worker : MinimizationInput → MinimizationResult)
    (input : List (String × List BlobRow)) (ff : String) (order order' : List Nat)
    (k : String) (rows : List BlobRow)
    (hw : ∀ inp, (worker inp).inchi_key = inp.inchi_key)
    (hnod : (input.map Prod.fst).Nodup)
    (horder : order.Perm (List.range (buildMinimizationInputs input ff).length))
    (horder' : order'.Perm (List.range (buildMinimizationInputs input ff).length))
    (hmem : (k, rows) ∈ input) (hrows : rows ≠ []) :
    _minimize_blob worker input ff order = _minimize_blob worker input ff order' ∧
    lookupGroup k (_minimize_blob worker input ff order) =
      some (rows.map (fun row => worker (⟨k, row.qcarchive_id, ff, row.mapped_smiles,
        row.coordinates⟩ : MinimizationInput))) := by
  have hrun : ∀ o, o.Perm (List.range (buildMinimizationInputs input ff).length) →
      _minimize_blob worker input ff o =
        ((buildMinimizationInputs input ff).map worker).foldl appendToGroup [] := by
    intro o ho
    unfold _minimize_blob
    rw [imapResults_eq_map worker _ o ho]
  constructor
  · rw [hrun order horder, hrun order' horder']
  · rw [hrun order horder, lookupGroup_groupResults,
      filter_buildInputs_mem worker hw ff k rows input hnod hmem]
    rw [if_neg ?_]
    intro hc
    exact hrows (List.map_eq_nil_iff.mp hc)

/-- A concrete worker for the C2 witness: echoes its input fields with a
fixed energy. -/
def workerEcho : MinimizationInput → MinimizationResult :=
  fun inp => ⟨inp.inchi_key, inp.qcarchive_id, inp.force_field, inp.mapped_smiles,
    inp.coordinates, 42⟩

/-- First conformer row of the KEY-A group. -/
def rowA1 : BlobRow := ⟨"qca-1", "[C:1][C:2]", ⟨[0, 0, 0, 1, 1, 1], [2, 3], true⟩⟩

/-- Second conformer row of the KEY-A group. -/
def rowA2 : BlobRow := ⟨"qca-2", "[C:2][C:1]", ⟨[2, 2, 2, 3, 3, 3], [2, 3], true⟩⟩

/-- The only conformer row of the KEY-B group. -/
def rowB1 : BlobRow := ⟨"qca-3", "[O:1]", ⟨[4, 4, 4], [1, 3], true⟩⟩

/-- A grouped minimization batch with two structural keys. -/
def inputC2 : List (String × List BlobRow) := [("KEY-A", [rowA1, rowA2]), ("KEY-B", [rowB1])]

/-- Witness for claim C2 at concrete inputs: two different completion
schedules produce identical grouped output, and the KEY-A group holds the
worker's results for its two rows in submission order. -/
theorem C2_witness :
    _minimize_blob workerEcho inputC2 "openff-2.0.0" [2, 0, 1] =
      _minimize_blob workerEcho inputC2 "openff-2.0.0" [1, 2, 0] ∧
    lookupGroup "KEY-A" (_minimize_blob workerEcho inputC2 "openff-2.0.0" [2, 0, 1]) =
      some ([rowA1, rowA2].map (fun row => workerEcho ⟨"KEY-A", row.qcarchive_id,
        "openff-2.0.0", row.mapped_smiles, row.coordinates⟩)) :=
  C2_batch_results_ordered_by_submission workerEcho inputC2 "openff-2.0.0" [2, 0, 1] [1, 2, 0]
    "KEY-A" [rowA1, rowA2] (fun _ => rfl) (by decide) (by decide) (by decide) (by decide)
    (by decide)
